import Mathlib

/-!
Verification of the XCDP event-ingestion contract (`src/lib.rs`).

The contract ingests a base64-wrapped, JSON-serialized Ethereum log record,
ABI-decodes its `data` field into a single string parameter, and stores the
resulting message in a map keyed by `global_tx_id + "-" + event_id`, together
with a running `total_events` counter.  The whole aggregate is persisted to a
single storage slot as a borsh-style binary blob.

Modelling conventions:
* Rust `String` values and byte payloads are both modelled as `List UInt8`
  (a Rust string is its UTF-8 byte sequence); string concatenation is list
  append.  Everything is kept executable so concrete scenarios evaluate.
* Rust panics (`panic!`, `assert!`, `expect`, `unwrap`) are modelled as
  `Option.none`: the host aborts the call and reverts all state on panic, so a
  panicking call returns no new state.
* The external library functions used by the contract (`base64::decode`,
  `serde_json::from_slice::<Log>`, `ethers::abi::decode`, the `H256` display
  form, borsh serialization) are modelled by executable Lean functions that
  follow the documented behaviour of those libraries on the inputs the
  contract can meet.
* `total_events` is a `u64` in the source; it is modelled as `Nat` and the
  serializer requires the value to fit in 64 bits, matching the machine type.
-/

/-- Rust byte strings and UTF-8 string contents. -/
abbrev Bytes := List UInt8

/-- UTF-8 encoding of a single unicode character (1 to 4 bytes). -/
def utf8Char (c : Char) : Bytes :=
  let n := c.toNat
  if n < 0x80 then [UInt8.ofNat n]
  else if n < 0x800 then
    [UInt8.ofNat (0xC0 + n / 0x40), UInt8.ofNat (0x80 + n % 0x40)]
  else if n < 0x10000 then
    [UInt8.ofNat (0xE0 + n / 0x1000), UInt8.ofNat (0x80 + n / 0x40 % 0x40),
     UInt8.ofNat (0x80 + n % 0x40)]
  else
    [UInt8.ofNat (0xF0 + n / 0x40000), UInt8.ofNat (0x80 + n / 0x1000 % 0x40),
     UInt8.ofNat (0x80 + n / 0x40 % 0x40), UInt8.ofNat (0x80 + n % 0x40)]

/-- UTF-8 bytes of a Lean string literal; used to write Rust strings. -/
def strBytes (s : String) : Bytes :=
  List.flatten (List.map utf8Char s.data)

/-- Lowercase hexadecimal digit for a value below 16 (as in Rust `{:02x}`). -/
def hexDigitL (n : Nat) : UInt8 :=
  if n < 10 then UInt8.ofNat (48 + n) else UInt8.ofNat (87 + n)

/-- Two lowercase hex digits of one byte (as in Rust `{:02x}`). -/
def hexByte (b : UInt8) : Bytes :=
  [hexDigitL (b.toNat / 16), hexDigitL (b.toNat % 16)]

/-- Lowercase hex rendering of a byte sequence. -/
def bytesToHex (bs : Bytes) : Bytes :=
  List.flatten (List.map hexByte bs)

/-- Numeric value of one hex digit character, if any. -/
def hexVal (b : UInt8) : Option Nat :=
  let n := b.toNat
  if 48 ≤ n ∧ n ≤ 57 then some (n - 48)
  else if 97 ≤ n ∧ n ≤ 102 then some (n - 87)
  else if 65 ≤ n ∧ n ≤ 70 then some (n - 55)
  else none

/-- Parse a hex digit string two digits at a time into bytes. -/
def hexPairs : Bytes → Option Bytes
  | [] => some []
  | [_] => none
  | c1 :: c2 :: rest => do
      let v1 ← hexVal c1
      let v2 ← hexVal c2
      let tail ← hexPairs rest
      some (UInt8.ofNat (v1 * 16 + v2) :: tail)

/-! ### base64 (model of `base64::decode` / standard alphabet) -/

/-- Standard-alphabet value of one base64 symbol (`=` is handled separately). -/
def b64Dec (b : UInt8) : Option Nat :=
  let n := b.toNat
  if 65 ≤ n ∧ n ≤ 90 then some (n - 65)
  else if 97 ≤ n ∧ n ≤ 122 then some (n - 71)
  else if 48 ≤ n ∧ n ≤ 57 then some (n + 4)
  else if n = 43 then some 62
  else if n = 47 then some 63
  else none

/-- Standard-alphabet symbol for a 6-bit value. -/
def b64Char (n : Nat) : UInt8 :=
  if n < 26 then UInt8.ofNat (65 + n)
  else if n < 52 then UInt8.ofNat (97 + n - 26)
  else if n < 62 then UInt8.ofNat (48 + n - 52)
  else if n = 62 then UInt8.ofNat 43
  else UInt8.ofNat 47

/-- Final two-symbol quantum: one output byte; trailing bits must be zero. -/
def b64Quantum2 (v1 v2 : Nat) : Option Bytes :=
  if v2 % 16 = 0 then some [UInt8.ofNat (v1 * 4 + v2 / 16)] else none

/-- Final three-symbol quantum: two output bytes; trailing bits must be zero. -/
def b64Quantum3 (v1 v2 v3 : Nat) : Option Bytes :=
  if v3 % 4 = 0 then
    some [UInt8.ofNat (v1 * 4 + v2 / 16), UInt8.ofNat (v2 % 16 * 16 + v3 / 4)]
  else none

/-- Full four-symbol quantum: three output bytes. -/
def b64Quantum4 (v1 v2 v3 v4 : Nat) : Bytes :=
  [UInt8.ofNat (v1 * 4 + v2 / 16), UInt8.ofNat (v2 % 16 * 16 + v3 / 4),
   UInt8.ofNat (v3 % 4 * 64 + v4)]

/-- Model of `base64::decode` (standard alphabet): four-symbol quanta, an
optional final short quantum or canonical `=` padding, non-canonical trailing
bits rejected, `=` allowed only at the very end. -/
def base64Decode : Bytes → Option Bytes
  | [] => some []
  | [_] => none
  | [c1, c2] => do
      let v1 ← b64Dec c1
      let v2 ← b64Dec c2
      b64Quantum2 v1 v2
  | [c1, c2, c3] => do
      let v1 ← b64Dec c1
      let v2 ← b64Dec c2
      let v3 ← b64Dec c3
      b64Quantum3 v1 v2 v3
  | c1 :: c2 :: c3 :: c4 :: rest => do
      let v1 ← b64Dec c1
      let v2 ← b64Dec c2
      if c3 = UInt8.ofNat 61 then
        if c4 = UInt8.ofNat 61 ∧ rest = [] then b64Quantum2 v1 v2 else none
      else do
        let v3 ← b64Dec c3
        if c4 = UInt8.ofNat 61 then
          if rest = [] then b64Quantum3 v1 v2 v3 else none
        else do
          let v4 ← b64Dec c4
          let tail ← base64Decode rest
          some (b64Quantum4 v1 v2 v3 v4 ++ tail)

/-- Standard base64 encoding with padding; used to build scenario inputs. -/
def base64Encode : Bytes → Bytes
  | [] => []
  | [b1] =>
      [b64Char (b1.toNat / 4), b64Char (b1.toNat % 4 * 16),
       UInt8.ofNat 61, UInt8.ofNat 61]
  | [b1, b2] =>
      [b64Char (b1.toNat / 4), b64Char (b1.toNat % 4 * 16 + b2.toNat / 16),
       b64Char (b2.toNat % 16 * 4), UInt8.ofNat 61]
  | b1 :: b2 :: b3 :: rest =>
      [b64Char (b1.toNat / 4), b64Char (b1.toNat % 4 * 16 + b2.toNat / 16),
       b64Char (b2.toNat % 16 * 4 + b3.toNat / 64), b64Char (b3.toNat % 64)]
      ++ base64Encode rest

/-! ### JSON (model of `serde_json::from_slice`) -/

/-- JSON values.  Numbers keep their raw digits: the contract never reads a
numeric field, so their value is irrelevant. -/
inductive Json where
  | jnull
  | jbool (b : Bool)
  | jnum (raw : Bytes)
  | jstr (s : Bytes)
  | jarr (elems : List Json)
  | jobj (fields : List (Bytes × Json))

/-- JSON insignificant whitespace. -/
def isWs (b : UInt8) : Bool :=
  b = UInt8.ofNat 32 ∨ b = UInt8.ofNat 9 ∨ b = UInt8.ofNat 10 ∨ b = UInt8.ofNat 13

/-- Skip insignificant whitespace. -/
def skipWs : Bytes → Bytes
  | [] => []
  | b :: rest => if isWs b then skipWs rest else b :: rest

/-- Four hex digits of a `\uXXXX` escape. -/
def parseHex4 : Bytes → Option (Nat × Bytes)
  | c1 :: c2 :: c3 :: c4 :: rest => do
      let v1 ← hexVal c1
      let v2 ← hexVal c2
      let v3 ← hexVal c3
      let v4 ← hexVal c4
      some (((v1 * 16 + v2) * 16 + v3) * 16 + v4, rest)
  | _ => none

/-- UTF-8 bytes of a code point (used for `\uXXXX` escapes). -/
def utf8Cp (n : Nat) : Bytes :=
  if n < 0x80 then [UInt8.ofNat n]
  else if n < 0x800 then
    [UInt8.ofNat (0xC0 + n / 0x40), UInt8.ofNat (0x80 + n % 0x40)]
  else
    [UInt8.ofNat (0xE0 + n / 0x1000), UInt8.ofNat (0x80 + n / 0x40 % 0x40),
     UInt8.ofNat (0x80 + n % 0x40)]

/-- Body of a JSON string after the opening quote: content bytes and the rest
of the input after the closing quote.  Control bytes are rejected; escape
sequences are decoded (surrogate pairs are not modelled: the contract's inputs
never contain them). -/
def parseJStr : Nat → Bytes → Option (Bytes × Bytes)
  | 0, _ => none
  | _ + 1, [] => none
  | fuel + 1, b :: rest =>
      if b = UInt8.ofNat 34 then some ([], rest)
      else if b = UInt8.ofNat 92 then
        match rest with
        | [] => none
        | e :: rest2 =>
            let esc : Option (Bytes × Bytes) :=
              if e = UInt8.ofNat 34 then some ([UInt8.ofNat 34], rest2)
              else if e = UInt8.ofNat 92 then some ([UInt8.ofNat 92], rest2)
              else if e = UInt8.ofNat 47 then some ([UInt8.ofNat 47], rest2)
              else if e = UInt8.ofNat 98 then some ([UInt8.ofNat 8], rest2)
              else if e = UInt8.ofNat 102 then some ([UInt8.ofNat 12], rest2)
              else if e = UInt8.ofNat 110 then some ([UInt8.ofNat 10], rest2)
              else if e = UInt8.ofNat 114 then some ([UInt8.ofNat 13], rest2)
              else if e = UInt8.ofNat 116 then some ([UInt8.ofNat 9], rest2)
              else if e = UInt8.ofNat 117 then do
                let (cp, rest3) ← parseHex4 rest2
                if 0xD800 ≤ cp ∧ cp < 0xE000 then none else some (utf8Cp cp, rest3)
              else none
            do
              let (pre, rest3) ← esc
              let (tail, rest4) ← parseJStr fuel rest3
              some (pre ++ tail, rest4)
      else if b.toNat < 32 then none
      else do
        let (tail, rest2) ← parseJStr fuel rest
        some (b :: tail, rest2)

/-- Characters that may appear in a JSON number token. -/
def isNumByte (b : UInt8) : Bool :=
  let n := b.toNat
  (48 ≤ n ∧ n ≤ 57) ∨ n = 43 ∨ n = 45 ∨ n = 46 ∨ n = 101 ∨ n = 69

/-- Longest run of number bytes (number syntax is modelled loosely: the
contract never reads numeric fields). -/
def spanNum : Bytes → (Bytes × Bytes)
  | [] => ([], [])
  | b :: rest =>
      if isNumByte b then
        let (tok, rest2) := spanNum rest
        (b :: tok, rest2)
      else ([], b :: rest)

/-- Sequence of array elements after the first has been reached (closing
bracket already handled for the empty case).  The value parsing function is
passed in; `fuel` bounds the number of elements. -/
def parseArrRest (pv : Bytes → Option (Json × Bytes)) :
    Nat → Bytes → Option (List Json × Bytes)
  | 0, _ => none
  | fuel + 1, s => do
      let (v, r1) ← pv s
      match skipWs r1 with
      | b :: r2 =>
          if b = UInt8.ofNat 44 then do
            let (vs, r3) ← parseArrRest pv fuel r2
            some (v :: vs, r3)
          else if b = UInt8.ofNat 93 then some ([v], r2)
          else none
      | [] => none

/-- Sequence of object members after the first has been reached. -/
def parseObjRest (pv : Bytes → Option (Json × Bytes)) :
    Nat → Bytes → Option (List (Bytes × Json) × Bytes)
  | 0, _ => none
  | fuel + 1, s =>
      match skipWs s with
      | b :: r0 =>
          if b = UInt8.ofNat 34 then do
            let (key, r1) ← parseJStr (r0.length + 1) r0
            match skipWs r1 with
            | c :: r2 =>
                if c = UInt8.ofNat 58 then do
                  let (v, r3) ← pv r2
                  match skipWs r3 with
                  | d :: r4 =>
                      if d = UInt8.ofNat 44 then do
                        let (ms, r5) ← parseObjRest pv fuel r4
                        some ((key, v) :: ms, r5)
                      else if d = UInt8.ofNat 125 then some ([(key, v)], r4)
                      else none
                  | [] => none
                else none
            | [] => none
          else none
      | [] => none

/-- One JSON value (recursion is bounded by `fuel`; callers pass the input
length, which always suffices since every nesting level consumes a byte). -/
def parseJVal : Nat → Bytes → Option (Json × Bytes)
  | 0, _ => none
  | fuel + 1, s =>
      match skipWs s with
      | [] => none
      | b :: r =>
          if b = UInt8.ofNat 34 then do
            let (str, r2) ← parseJStr (r.length + 1) r
            some (Json.jstr str, r2)
          else if b = UInt8.ofNat 91 then
            match skipWs r with
            | c :: r2 =>
                if c = UInt8.ofNat 93 then some (Json.jarr [], r2)
                else do
                  let (vs, r3) ← parseArrRest (parseJVal fuel) (r.length + 1) (c :: r2)
                  some (Json.jarr vs, r3)
            | [] => none
          else if b = UInt8.ofNat 123 then
            match skipWs r with
            | c :: r2 =>
                if c = UInt8.ofNat 125 then some (Json.jobj [], r2)
                else do
                  let (ms, r3) ← parseObjRest (parseJVal fuel) (r.length + 1) (c :: r2)
                  some (Json.jobj ms, r3)
            | [] => none
          else if b = UInt8.ofNat 116 then
            match r with
            | r1 :: r2 :: r3 :: rest =>
                if r1 = UInt8.ofNat 114 ∧ r2 = UInt8.ofNat 117 ∧ r3 = UInt8.ofNat 101 then
                  some (Json.jbool true, rest)
                else none
            | _ => none
          else if b = UInt8.ofNat 102 then
            match r with
            | r1 :: r2 :: r3 :: r4 :: rest =>
                if r1 = UInt8.ofNat 97 ∧ r2 = UInt8.ofNat 108 ∧ r3 = UInt8.ofNat 115
                    ∧ r4 = UInt8.ofNat 101 then
                  some (Json.jbool false, rest)
                else none
            | _ => none
          else if b = UInt8.ofNat 110 then
            match r with
            | r1 :: r2 :: r3 :: rest =>
                if r1 = UInt8.ofNat 117 ∧ r2 = UInt8.ofNat 108 ∧ r3 = UInt8.ofNat 108 then
                  some (Json.jnull, rest)
                else none
            | _ => none
          else if isNumByte b then
            let (tok, rest) := spanNum (b :: r)
            some (Json.jnum tok, rest)
          else none

/-- Model of `serde_json::from_slice`: the whole input must be one JSON value
surrounded only by whitespace. -/
def parseJson (bs : Bytes) : Option Json := do
  let (v, r) ← parseJVal (bs.length + 1) bs
  if skipWs r = [] then some v else none

/-! ### Ethereum log extraction (model of `Deserialize` for `ethers::types::Log`) -/

/-- The fields of `ethers::types::Log` that the contract reads (plus the
required `address`); the optional block metadata fields are accepted and
ignored. -/
structure EthLog where
  address : Bytes
  topics : List Bytes
  data : Bytes
deriving DecidableEq

/-- First value of an object field with the given name. -/
def objGet (fields : List (Bytes × Json)) (name : Bytes) : Option Json :=
  match fields with
  | [] => none
  | (k, v) :: rest => if k = name then some v else objGet rest name

/-- Fixed-width hash field: `0x` followed by exactly `2 * n` hex digits,
giving `n` bytes (serde form of `H160` / `H256`). -/
def parseFixedHex (n : Nat) (s : Bytes) : Option Bytes :=
  match s with
  | c1 :: c2 :: rest =>
      if c1 = UInt8.ofNat 48 ∧ c2 = UInt8.ofNat 120 ∧ rest.length = 2 * n then
        hexPairs rest
      else none
  | _ => none

/-- Variable-length byte field: `0x` followed by an even number of hex digits
(serde form of `ethers::types::Bytes`). -/
def parseHexBytes (s : Bytes) : Option Bytes :=
  match s with
  | c1 :: c2 :: rest =>
      if c1 = UInt8.ofNat 48 ∧ c2 = UInt8.ofNat 120 then hexPairs rest else none
  | _ => none

/-- Topics array: every element must be a 32-byte hex string. -/
def parseTopics : List Json → Option (List Bytes)
  | [] => some []
  | Json.jstr s :: rest => do
      let t ← parseFixedHex 32 s
      let ts ← parseTopics rest
      some (t :: ts)
  | _ => none

/-- Extraction of a `Log` from a parsed JSON value: `address`, `topics` and
`data` are required, other fields are ignored. -/
def logFromJson : Json → Option EthLog
  | Json.jobj fields => do
      let Json.jstr addrS ← objGet fields (strBytes "address") | none
      let addr ← parseFixedHex 20 addrS
      let Json.jarr topicsJ ← objGet fields (strBytes "topics") | none
      let topics ← parseTopics topicsJ
      let Json.jstr dataS ← objGet fields (strBytes "data") | none
      let data ← parseHexBytes dataS
      some ⟨addr, topics, data⟩
  | _ => none

/-- Model of `serde_json::from_slice::<Log>` as used on line 118. -/
def parseLog (bs : Bytes) : Option EthLog := do
  let j ← parseJson bs
  logFromJson j

/-- Model of `H256`'s `Display` (hence `to_string()` on line 121): `0x`, the
first two bytes in lowercase hex, the ellipsis character `…`, and the last two
bytes in lowercase hex. -/
def h256Display (t : Bytes) : Bytes :=
  strBytes "0x" ++ bytesToHex (t.take 2) ++ strBytes "…" ++ bytesToHex (t.drop 30)

/-! ### ABI decoding (model of `ethers::abi::decode(&[ParamType::String], _)`) -/

/-- Big-endian value of a byte sequence (used on 32-byte words). -/
def beWord (bs : Bytes) : Nat :=
  bs.foldl (fun acc b => acc * 256 + b.toNat) 0

/-- Model of `ethers::abi::decode` with the one-element schema
`[ParamType::String]`, composed with `into_string()`: the head word at offset
0 points at a length-prefixed tail; any out-of-bounds read is a decode error.
The decoded string is kept as its raw bytes. -/
def abiDecodeString (bs : Bytes) : Option Bytes :=
  if 32 ≤ bs.length then
    let off := beWord (bs.take 32)
    if off + 32 ≤ bs.length then
      let len := beWord ((bs.drop off).take 32)
      if off + 32 + len ≤ bs.length then some ((bs.drop (off + 32)).take len)
      else none
    else none
  else none

/-- Big-endian 32-byte word of a value; used to build scenario inputs. -/
def natToBe32 (n : Nat) : Bytes :=
  (List.range 32).map (fun i => UInt8.ofNat (n / 256 ^ (31 - i) % 256))

/-- ABI encoding of a single dynamic string parameter; used to build scenario
inputs. -/
def abiEncodeString (s : Bytes) : Bytes :=
  natToBe32 32 ++ natToBe32 s.length ++ s
  ++ List.replicate ((32 - s.length % 32) % 32) (UInt8.ofNat 0)

/-! ### Contract data model (`src/lib.rs` lines 13-65) -/

/-- `XCDPSendMessage` (line 15): the stored message. -/
structure XCDPSendMessage where
  message : Bytes
deriving DecidableEq

/-- `XCDPSendMessageSolidity` (line 21): the ABI-facing shape. -/
structure XCDPSendMessageSolidity where
  message : Bytes
deriving DecidableEq

/-- The `From` conversion (lines 26-32). -/
def XCDPSendMessageSolidity.toStored (e : XCDPSendMessageSolidity) : XCDPSendMessage :=
  { message := e.message }

/-- Association-list operations modelling the `LookupMap` used for `events`:
a persistent map from `String` keys to stored messages.  `insertAssoc`
overwrites an existing entry in place and otherwise appends. -/
def insertAssoc (l : List (Bytes × XCDPSendMessage)) (k : Bytes) (v : XCDPSendMessage) :
    List (Bytes × XCDPSendMessage) :=
  match l with
  | [] => [(k, v)]
  | (k0, v0) :: rest =>
      if k0 = k then (k, v) :: rest else (k0, v0) :: insertAssoc rest k v

/-- `LookupMap::contains_key`. -/
def containsKey (l : List (Bytes × XCDPSendMessage)) (k : Bytes) : Bool :=
  match l with
  | [] => false
  | (k0, _) :: rest => if k0 = k then true else containsKey rest k

/-- Lookup of a stored message by key. -/
def lookupAssoc (l : List (Bytes × XCDPSendMessage)) (k : Bytes) : Option XCDPSendMessage :=
  match l with
  | [] => none
  | (k0, v0) :: rest => if k0 = k then some v0 else lookupAssoc rest k

/-- `XCDPCore` (line 52): the aggregate of the events map and the counter.
`total_events` is the `u64` counter as a `Nat`. -/
structure XCDPCore where
  events : List (Bytes × XCDPSendMessage)
  total_events : Nat
deriving DecidableEq

/-- The `Default` impl (lines 58-65): empty map, counter zero. -/
def XCDPCore.default : XCDPCore := { events := [], total_events := 0 }

/-! ### Persisted format (model of borsh serialization, spec section 6) -/

/-- Little-endian 4-byte length prefix. -/
def u32LE (n : Nat) : Bytes :=
  [UInt8.ofNat (n % 256), UInt8.ofNat (n / 256 % 256),
   UInt8.ofNat (n / 65536 % 256), UInt8.ofNat (n / 16777216 % 256)]

/-- Little-endian 8-byte word. -/
def u64LE (n : Nat) : Bytes :=
  [UInt8.ofNat (n % 256), UInt8.ofNat (n / 256 % 256),
   UInt8.ofNat (n / 65536 % 256), UInt8.ofNat (n / 16777216 % 256),
   UInt8.ofNat (n / 4294967296 % 256), UInt8.ofNat (n / 1099511627776 % 256),
   UInt8.ofNat (n / 281474976710656 % 256), UInt8.ofNat (n / 72057594037927936 % 256)]

/-- Borsh string: `u32` byte length followed by the bytes; serialization fails
(and with it `try_to_vec`, line 81) when the length does not fit in `u32`. -/
def serStr (s : Bytes) : Option Bytes :=
  if s.length < 4294967296 then some (u32LE s.length ++ s) else none

/-- Serialized map entries, in insertion order. -/
def serEntries : List (Bytes × XCDPSendMessage) → Option Bytes
  | [] => some []
  | (k, v) :: rest =>
      match serStr k, serStr v.message, serEntries rest with
      | some kb, some vb, some tb => some (kb ++ (vb ++ tb))
      | _, _, _ => none

/-- Model of `try_to_vec` (line 81) for the aggregate, following the persisted
format stated by the spec: `u32` entry count, the entries, then the `u64`
counter.  Fails when a length exceeds `u32` or the counter exceeds `u64`. -/
def trySerialize (c : XCDPCore) : Option Bytes :=
  if c.events.length < 4294967296 ∧ c.total_events < 18446744073709551616 then
    match serEntries c.events with
    | some body => some (u32LE c.events.length ++ (body ++ u64LE c.total_events))
    | none => none
  else none

/-- Read exactly `n` bytes. -/
def readBytesN (n : Nat) (bs : Bytes) : Option (Bytes × Bytes) :=
  if n ≤ bs.length then some (bs.take n, bs.drop n) else none

/-- Read a little-endian `u32`. -/
def readU32 : Bytes → Option (Nat × Bytes)
  | b0 :: b1 :: b2 :: b3 :: rest =>
      some (b0.toNat + 256 * b1.toNat + 65536 * b2.toNat + 16777216 * b3.toNat, rest)
  | _ => none

/-- Read a little-endian `u64`. -/
def readU64 : Bytes → Option (Nat × Bytes)
  | b0 :: b1 :: b2 :: b3 :: b4 :: b5 :: b6 :: b7 :: rest =>
      some (b0.toNat + 256 * b1.toNat + 65536 * b2.toNat + 16777216 * b3.toNat
        + 4294967296 * b4.toNat + 1099511627776 * b5.toNat
        + 281474976710656 * b6.toNat + 72057594037927936 * b7.toNat, rest)
  | _ => none

/-- Read a borsh string. -/
def readStr (bs : Bytes) : Option (Bytes × Bytes) :=
  (readU32 bs).bind fun p => readBytesN p.1 p.2

/-- Read `n` serialized map entries. -/
def readEntries : Nat → Bytes → Option (List (Bytes × XCDPSendMessage) × Bytes)
  | 0, bs => some ([], bs)
  | n + 1, bs =>
      (readStr bs).bind fun p =>
        (readStr p.2).bind fun q =>
          (readEntries n q.2).bind fun r => some ((p.1, ⟨q.1⟩) :: r.1, r.2)

/-- Model of `XCDPCore::try_from_slice` (line 71): parse the persisted format,
requiring the whole input to be consumed. -/
def tryFromSlice (bs : Bytes) : Option XCDPCore :=
  (readU32 bs).bind fun p =>
    (readEntries p.1 p.2).bind fun q =>
      (readU64 q.2).bind fun r =>
        if r.2 = [] then some ⟨q.1, r.1⟩ else none

/-! ### Storage and the contract entry points (`src/lib.rs` lines 9-11, 67-155) -/

/-- The external key-value storage capability. -/
structure Storage where
  slots : List (Bytes × Bytes)
deriving DecidableEq

/-- Storage with no slots written. -/
def emptyStorage : Storage := ⟨[]⟩

/-- Slot lookup on the underlying slot list. -/
def slotsRead (slots : List (Bytes × Bytes)) (k : Bytes) : Option Bytes :=
  match slots with
  | [] => none
  | (k0, v0) :: rest => if k0 = k then some v0 else slotsRead rest k

/-- Slot update on the underlying slot list (overwrites in place). -/
def slotsWrite (slots : List (Bytes × Bytes)) (k v : Bytes) : List (Bytes × Bytes) :=
  match slots with
  | [] => [(k, v)]
  | (k0, v0) :: rest =>
      if k0 = k then (k, v) :: rest else (k0, v0) :: slotsWrite rest k v

/-- `l1x_sdk::storage_read`. -/
def storage_read (σ : Storage) (k : Bytes) : Option Bytes :=
  slotsRead σ.slots k

/-- `l1x_sdk::storage_write` (overwrites the slot). -/
def storage_write (σ : Storage) (k v : Bytes) : Storage :=
  ⟨slotsWrite σ.slots k v⟩

/-- `STORAGE_CONTRACT_KEY` (line 10): the single slot holding the aggregate. -/
def STORAGE_CONTRACT_KEY : Bytes := strBytes "message"

namespace XCDPCore

/-- `load` (lines 69-77): read the contract slot and deserialize; an absent
slot ("the contract is not initialized") and a parse failure both panic. -/
def load (σ : Storage) : Option XCDPCore :=
  match storage_read σ STORAGE_CONTRACT_KEY with
  | some bytes => tryFromSlice bytes
  | none => none

/-- `save` (lines 80-88): serialize the aggregate and overwrite the contract
slot; a serialization failure panics before any write. -/
def save (c : XCDPCore) (σ : Storage) : Option Storage :=
  match trySerialize c with
  | some encoded => some (storage_write σ STORAGE_CONTRACT_KEY encoded)
  | none => none

/-- `new` (lines 91-94): persist a default aggregate (unconditionally). -/
def new (σ : Storage) : Option Storage :=
  save XCDPCore.default σ

/-- `to_key` (lines 138-140): `global_tx_id + "-" + event_type`. -/
def to_key (global_tx_id event_type : Bytes) : Bytes :=
  global_tx_id ++ [UInt8.ofNat 45] ++ event_type

/-- `save_message_event` (lines 143-155): unconditional keyed insert under the
composite key, then increment the counter.  The destination fields are only
logged. -/
def save_message_event (c : XCDPCore) (global_tx_id event_id : Bytes)
    (event : XCDPSendMessage) (_destination_network : Bytes)
    (_destination_smart_contract_address : Bytes) : XCDPCore :=
  { events := insertAssoc c.events (to_key global_tx_id event_id) event,
    total_events := c.total_events + 1 }

/-- The decoding pipeline of `save_event_data` (lines 113-130): base64, JSON
log, first topic rendered via `Display`, ABI string parameter.  Returns the
event id and the message bytes. -/
def decodeEvent (event_data : Bytes) : Option (Bytes × Bytes) :=
  (base64Decode event_data).bind fun decoded =>
    (parseLog decoded).bind fun lg =>
      lg.topics.head?.bind fun t0 =>
        (abiDecodeString lg.data).bind fun msg =>
          some (h256Display t0, msg)

/-- The in-memory step of `save_event_data` (lines 106-132): the three
`assert!`s in source order, then the decoding pipeline, then
`save_message_event` with the placeholder destination fields. -/
def ingest (c : XCDPCore) (event_data : Bytes) (global_tx_id : Bytes) : Option XCDPCore :=
  if global_tx_id = [] then none
  else if event_data = [] then none
  else if containsKey c.events global_tx_id then none
  else
    match decodeEvent event_data with
    | none => none
    | some (event_id, msg) =>
        some (save_message_event c global_tx_id event_id
          (XCDPSendMessageSolidity.toStored ⟨msg⟩)
          (strBytes "destination_network_placeholder") (List.replicate 32 (UInt8.ofNat 0)))

/-- `save_event_data` (lines 97-135): load the aggregate, run the in-memory
step, persist the result.  `none` models a panic: the host aborts the call and
no storage write survives. -/
def save_event_data (σ : Storage) (event_data : Bytes) (global_tx_id : Bytes) :
    Option Storage :=
  match load σ with
  | none => none
  | some c =>
      match ingest c event_data global_tx_id with
      | none => none
      | some c1 => save c1 σ

/-- Host-level result of a call to `save_event_data`: a panicking call leaves
storage untouched. -/
def save_event_data_call (σ : Storage) (event_data : Bytes) (global_tx_id : Bytes) :
    Storage :=
  (save_event_data σ event_data global_tx_id).getD σ

end XCDPCore

/-- A sequence of `save_event_data` calls, all of which must succeed. -/
def runCalls : Storage → List (Bytes × Bytes) → Option Storage
  | σ, [] => some σ
  | σ, (ev, g) :: rest =>
      match XCDPCore.save_event_data σ ev g with
      | some σ1 => runCalls σ1 rest
      | none => none

/-- The composite key a call would store under, read off the inputs alone. -/
def traceKey (p : Bytes × Bytes) : Option Bytes :=
  (XCDPCore.decodeEvent p.1).map (fun r => XCDPCore.to_key p.2 r.1)

/-- Aggregate states reachable from a fresh aggregate by successful ingestion
steps. -/
inductive Reachable : XCDPCore → Prop where
  | init : Reachable XCDPCore.default
  | step {c c1 : XCDPCore} {ev g : Bytes} :
      Reachable c → XCDPCore.ingest c ev g = some c1 → Reachable c1

/-- Number of distinct keys in the events map. -/
def distinctKeyCount (c : XCDPCore) : Nat :=
  ((c.events.map Prod.fst).dedup).length

/-! ### Serialization roundtrip lemmas -/

theorem toNat_ofNat_u8 (x : Nat) : (UInt8.ofNat x).toNat = x % 256 := rfl

theorem readU32_u32LE {n : Nat} (h : n < 4294967296) (rest : Bytes) :
    readU32 (u32LE n ++ rest) = some (n, rest) := by
  simp only [u32LE, List.cons_append, List.nil_append, readU32, toNat_ofNat_u8,
    Option.some.injEq, Prod.mk.injEq, and_true]
  omega

theorem readU64_u64LE {n : Nat} (h : n < 18446744073709551616) (rest : Bytes) :
    readU64 (u64LE n ++ rest) = some (n, rest) := by
  simp only [u64LE, List.cons_append, List.nil_append, readU64, toNat_ofNat_u8,
    Option.some.injEq, Prod.mk.injEq, and_true]
  omega

theorem readBytesN_exact (s rest : Bytes) :
    readBytesN s.length (s ++ rest) = some (s, rest) := by
  simp [readBytesN, List.take_left, List.drop_left]

theorem readStr_serStr {s b : Bytes} (h : serStr s = some b) (rest : Bytes) :
    readStr (b ++ rest) = some (s, rest) := by
  unfold serStr at h
  split at h
  · cases h
    rw [readStr, List.append_assoc, readU32_u32LE (by assumption) (s ++ rest),
      Option.some_bind]
    exact readBytesN_exact s rest
  · cases h

theorem readEntries_serEntries :
    ∀ (l : List (Bytes × XCDPSendMessage)) {b : Bytes}, serEntries l = some b →
      ∀ rest : Bytes, readEntries l.length (b ++ rest) = some (l, rest)
  | [], b, h, rest => by
      cases h
      simp [readEntries]
  | (k, v) :: l, b, h, rest => by
      rw [serEntries] at h
      split at h
      case _ kb vb tb hkb hvb htb =>
        cases h
        rw [List.length_cons, readEntries, List.append_assoc, List.append_assoc,
          readStr_serStr hkb (vb ++ (tb ++ rest)), Option.some_bind,
          readStr_serStr hvb (tb ++ rest), Option.some_bind,
          readEntries_serEntries l htb rest, Option.some_bind]
      case _ => cases h

theorem tryFromSlice_trySerialize {c : XCDPCore} {b : Bytes}
    (h : trySerialize c = some b) : tryFromSlice b = some c := by
  unfold trySerialize at h
  split at h
  case isTrue hlt =>
    split at h
    case _ body hbody =>
      cases h
      have h64 : readU64 (u64LE c.total_events) = some (c.total_events, []) := by
        have := readU64_u64LE hlt.2 []
        rwa [List.append_nil] at this
      rw [tryFromSlice, readU32_u32LE hlt.1 (body ++ u64LE c.total_events),
        Option.some_bind,
        readEntries_serEntries c.events hbody (u64LE c.total_events),
        Option.some_bind, h64, Option.some_bind]
      rfl
    case _ => cases h
  case isFalse => cases h

theorem slotsRead_slotsWrite_self (slots : List (Bytes × Bytes)) (k v : Bytes) :
    slotsRead (slotsWrite slots k v) k = some v := by
  induction slots with
  | nil => simp [slotsWrite, slotsRead]
  | cons hd tl ih =>
      obtain ⟨k0, v0⟩ := hd
      by_cases hk : k0 = k
      · simp [slotsWrite, hk, slotsRead]
      · simpa [slotsWrite, slotsRead, hk] using ih

/-- Saving and then loading recovers the aggregate exactly. -/
theorem load_of_save {c : XCDPCore} {σ σ1 : Storage}
    (h : XCDPCore.save c σ = some σ1) : XCDPCore.load σ1 = some c := by
  unfold XCDPCore.save at h
  split at h
  case _ encoded henc =>
    cases h
    unfold XCDPCore.load storage_read storage_write
    rw [slotsRead_slotsWrite_self]
    exact tryFromSlice_trySerialize henc
  case _ => cases h

/-! ### Events-map lemmas -/

theorem containsKey_iff (l : List (Bytes × XCDPSendMessage)) (k : Bytes) :
    containsKey l k = true ↔ k ∈ l.map Prod.fst := by
  induction l with
  | nil => simp [containsKey]
  | cons hd tl ih =>
      obtain ⟨k0, v0⟩ := hd
      by_cases hk : k0 = k
      · subst hk
        simp [containsKey]
      · have hk2 : ¬k = k0 := fun h => hk h.symm
        simp [containsKey, hk, hk2, ih]

theorem insertAssoc_length_of_mem {l : List (Bytes × XCDPSendMessage)} {k : Bytes}
    (h : containsKey l k = true) (v : XCDPSendMessage) :
    (insertAssoc l k v).length = l.length := by
  induction l with
  | nil => simp [containsKey] at h
  | cons hd tl ih =>
      obtain ⟨k0, v0⟩ := hd
      by_cases hk : k0 = k
      · simp [insertAssoc, hk]
      · rw [containsKey, if_neg hk] at h
        simp only [insertAssoc, hk, if_false, List.length_cons]
        rw [ih h]

theorem insertAssoc_length_of_not_mem {l : List (Bytes × XCDPSendMessage)} {k : Bytes}
    (h : containsKey l k = false) (v : XCDPSendMessage) :
    (insertAssoc l k v).length = l.length + 1 := by
  induction l with
  | nil => simp [insertAssoc]
  | cons hd tl ih =>
      obtain ⟨k0, v0⟩ := hd
      by_cases hk : k0 = k
      · rw [containsKey, if_pos hk] at h
        cases h
      · rw [containsKey, if_neg hk] at h
        simp only [insertAssoc, hk, if_false, List.length_cons]
        rw [ih h]

theorem insertAssoc_keys_of_mem {l : List (Bytes × XCDPSendMessage)} {k : Bytes}
    (h : containsKey l k = true) (v : XCDPSendMessage) :
    (insertAssoc l k v).map Prod.fst = l.map Prod.fst := by
  induction l with
  | nil => simp [containsKey] at h
  | cons hd tl ih =>
      obtain ⟨k0, v0⟩ := hd
      by_cases hk : k0 = k
      · simp [insertAssoc, hk]
      · rw [containsKey, if_neg hk] at h
        simp only [insertAssoc, hk, if_false, List.map_cons]
        rw [ih h]

theorem insertAssoc_keys_of_not_mem {l : List (Bytes × XCDPSendMessage)} {k : Bytes}
    (h : containsKey l k = false) (v : XCDPSendMessage) :
    (insertAssoc l k v).map Prod.fst = l.map Prod.fst ++ [k] := by
  induction l with
  | nil => simp [insertAssoc]
  | cons hd tl ih =>
      obtain ⟨k0, v0⟩ := hd
      by_cases hk : k0 = k
      · rw [containsKey, if_pos hk] at h
        cases h
      · rw [containsKey, if_neg hk] at h
        simp only [insertAssoc, hk, if_false, List.map_cons, List.cons_append,
          List.cons.injEq, true_and]
        exact ih h

theorem lookupAssoc_insertAssoc_self (l : List (Bytes × XCDPSendMessage))
    (k : Bytes) (v : XCDPSendMessage) :
    lookupAssoc (insertAssoc l k v) k = some v := by
  induction l with
  | nil => simp [insertAssoc, lookupAssoc]
  | cons hd tl ih =>
      obtain ⟨k0, v0⟩ := hd
      by_cases hk : k0 = k
      · simp [insertAssoc, hk, lookupAssoc]
      · simpa [insertAssoc, hk, lookupAssoc] using ih

theorem containsKey_insertAssoc (l : List (Bytes × XCDPSendMessage))
    (k k1 : Bytes) (v : XCDPSendMessage) :
    containsKey (insertAssoc l k v) k1 = true ↔ k1 = k ∨ containsKey l k1 = true := by
  induction l with
  | nil =>
      constructor
      · intro h
        rw [insertAssoc, containsKey] at h
        by_cases hk : k = k1
        · exact Or.inl hk.symm
        · rw [if_neg hk, containsKey] at h
          cases h
      · intro h
        rcases h with h | h
        · subst h
          simp [insertAssoc, containsKey]
        · rw [containsKey] at h
          cases h
  | cons hd tl ih =>
      obtain ⟨k0, v0⟩ := hd
      by_cases hk : k0 = k
      · subst hk
        by_cases hk1 : k0 = k1
        · subst hk1
          simp [insertAssoc, containsKey]
        · simp only [insertAssoc, if_pos rfl, containsKey, hk1, if_false]
          constructor
          · intro h
            exact Or.inr h
          · intro h
            rcases h with h | h
            · exact absurd h.symm hk1
            · exact h
      · by_cases hk1 : k0 = k1
        · subst hk1
          simp [insertAssoc, hk, containsKey]
        · simp only [insertAssoc, hk, if_false, containsKey, hk1, ih]


/-! ### Characterizations of the entry points -/

namespace XCDPCore

theorem ingest_none_of_contains {c : XCDPCore} {ev g : Bytes}
    (h : containsKey c.events g = true) : ingest c ev g = none := by
  unfold ingest
  rw [h]
  split
  · rfl
  · split
    · rfl
    · simp

theorem ingest_some_elim {c c1 : XCDPCore} {ev g : Bytes}
    (h : ingest c ev g = some c1) :
    g ≠ [] ∧ ev ≠ [] ∧ containsKey c.events g = false ∧
      ∃ eid msg, decodeEvent ev = some (eid, msg) ∧
        c1 = save_message_event c g eid (XCDPSendMessageSolidity.toStored ⟨msg⟩)
          (strBytes "destination_network_placeholder") (List.replicate 32 (UInt8.ofNat 0)) := by
  unfold ingest at h
  split at h
  · cases h
  case isFalse hg =>
    split at h
    · cases h
    case isFalse hev =>
      split at h
      case isTrue => cases h
      case isFalse hck =>
        split at h
        case _ => cases h
        case _ eid msg hd =>
          cases h
          exact ⟨hg, hev, Bool.eq_false_iff.mpr hck, eid, msg, hd, rfl⟩

theorem ingest_some_intro {c : XCDPCore} {ev g eid msg : Bytes}
    (hg : g ≠ []) (hev : ev ≠ []) (hck : containsKey c.events g = false)
    (hd : decodeEvent ev = some (eid, msg)) :
    ingest c ev g = some (save_message_event c g eid
      (XCDPSendMessageSolidity.toStored ⟨msg⟩)
      (strBytes "destination_network_placeholder") (List.replicate 32 (UInt8.ofNat 0))) := by
  unfold ingest
  rw [if_neg hg, if_neg hev, hck, hd]
  simp

theorem save_event_data_elim {σ σ1 : Storage} {ev g : Bytes}
    (h : save_event_data σ ev g = some σ1) :
    ∃ c c1, load σ = some c ∧ ingest c ev g = some c1 ∧ save c1 σ = some σ1 := by
  unfold save_event_data at h
  split at h
  · cases h
  case _ c hc =>
    split at h
    · cases h
    case _ c1 hc1 => exact ⟨c, c1, hc, hc1, h⟩

end XCDPCore

/-! ### Reachability invariant -/

theorem reachable_inv {c : XCDPCore} (h : Reachable c) :
    (c.events.map Prod.fst).Nodup ∧ c.events.length ≤ c.total_events := by
  induction h with
  | init => simp [XCDPCore.default]
  | step hr hi ih =>
      rename_i c0 c1 ev g
      obtain ⟨-, -, -, eid, msg, hd, hc1⟩ := XCDPCore.ingest_some_elim hi
      subst hc1
      obtain ⟨ihn, ihl⟩ := ih
      by_cases hkey : containsKey c0.events (XCDPCore.to_key g eid) = true
      · constructor
        · simp only [XCDPCore.save_message_event]
          rw [insertAssoc_keys_of_mem hkey]
          exact ihn
        · simp only [XCDPCore.save_message_event,
            insertAssoc_length_of_mem hkey]
          omega
      · have hkey2 : containsKey c0.events (XCDPCore.to_key g eid) = false :=
          Bool.eq_false_iff.mpr hkey
        constructor
        · simp only [XCDPCore.save_message_event]
          rw [insertAssoc_keys_of_not_mem hkey2, List.nodup_append]
          refine ⟨ihn, List.nodup_singleton _, ?_⟩
          intro a ha hmem
          rw [List.mem_singleton] at hmem
          subst hmem
          rw [(containsKey_iff _ _).mpr ha] at hkey2
          cases hkey2
        · simp only [XCDPCore.save_message_event,
            insertAssoc_length_of_not_mem hkey2]
          omega

/-! ### Concrete scenario inputs (spec section 8) -/

/-- ABI encoding of the single string parameter `"hello"`. -/
def helloAbi : Bytes := abiEncodeString (strBytes "hello")

/-- The JSON log of the spec scenario: topic `0xabc` padded to 32 bytes, data
the ABI encoding of `"hello"` (plus the `address` field `Log` requires). -/
def scenarioLogJson : Bytes :=
  strBytes "\x7b\"address\":\"0x0000000000000000000000000000000000000000\",\"topics\":[\"0x0000000000000000000000000000000000000000000000000000000000000abc\"],\"data\":\"0x"
  ++ bytesToHex helloAbi ++ strBytes "\"\x7d"

/-- The scenario call input: base64 of the JSON log. -/
def scenarioEvent : Bytes := base64Encode scenarioLogJson

/-- The 32-byte topic `0xabc` (padded). -/
def scenarioTopic : Bytes :=
  List.replicate 30 (UInt8.ofNat 0) ++ [UInt8.ofNat 10, UInt8.ofNat 188]

/-- Storage after `new` on empty storage: the contract slot holds the
serialized empty aggregate (twelve zero bytes). -/
def initialStorage : Storage :=
  ⟨[(STORAGE_CONTRACT_KEY, List.replicate 12 (UInt8.ofNat 0))]⟩

/-- The aggregate after the scenario call: one entry under the composite key
`"tx-1-0x0000…0abc"`, counter one. -/
def stateOne : XCDPCore :=
  ⟨[(strBytes "tx-1-0x0000…0abc", ⟨strBytes "hello"⟩)], 1⟩

/-! ### Failure-path helper lemmas -/

namespace XCDPCore

theorem ingest_none_of_decode_none {c : XCDPCore} {ev g : Bytes}
    (hde : decodeEvent ev = none) : ingest c ev g = none := by
  unfold ingest
  rw [hde]
  split
  · rfl
  · split
    · rfl
    · split
      · rfl
      · rfl

theorem ingest_none_of_empty {c : XCDPCore} {ev g : Bytes}
    (h : g = [] ∨ ev = []) : ingest c ev g = none := by
  unfold ingest
  rcases h with h | h
  · rw [if_pos h]
  · by_cases hg : g = []
    · rw [if_pos hg]
    · rw [if_neg hg, if_pos h]

theorem save_event_data_none_of_ingest_none {σ : Storage} {ev g : Bytes}
    (h : ∀ c, load σ = some c → ingest c ev g = none) :
    save_event_data σ ev g = none := by
  unfold save_event_data
  split
  · rfl
  case _ c hc => rw [h c hc]

theorem save_event_data_call_of_none {σ : Storage} {ev g : Bytes}
    (h : save_event_data σ ev g = none) : save_event_data_call σ ev g = σ := by
  unfold save_event_data_call
  rw [h]
  rfl

end XCDPCore

/-! ### Trace counting lemma -/

theorem runCalls_counts :
    ∀ (inputs : List (Bytes × Bytes)) (σ : Storage) (c : XCDPCore) (σ1 : Storage),
      XCDPCore.load σ = some c →
      runCalls σ inputs = some σ1 →
      (inputs.map traceKey).Nodup →
      (∀ p ∈ inputs, ∀ k, traceKey p = some k → containsKey c.events k = false) →
      ∃ c1, XCDPCore.load σ1 = some c1 ∧
        c1.total_events = c.total_events + inputs.length ∧
        c1.events.length = c.events.length + inputs.length
  | [], σ, c, σ1, hload, hrun, _, _ => by
      rw [runCalls] at hrun
      cases hrun
      exact ⟨c, hload, by simp, by simp⟩
  | (ev, g) :: rest, σ, c, σ1, hload, hrun, hnodup, hfresh => by
      rw [runCalls] at hrun
      split at hrun
      case _ σmid hsed =>
        obtain ⟨c0, cmid, hc0, hing, hsave⟩ := XCDPCore.save_event_data_elim hsed
        rw [hload] at hc0
        obtain rfl : c = c0 := Option.some.inj hc0
        obtain ⟨-, -, -, eid, msg, hd, hcm⟩ := XCDPCore.ingest_some_elim hing
        have hload2 : XCDPCore.load σmid = some cmid := load_of_save hsave
        have htk : traceKey (ev, g) = some (XCDPCore.to_key g eid) := by
          unfold traceKey
          rw [hd]
          rfl
        have hkey : containsKey c.events (XCDPCore.to_key g eid) = false :=
          hfresh (ev, g) (List.mem_cons_self _ _) _ htk
        rw [List.map_cons] at hnodup
        have hnodup2 := List.nodup_cons.mp hnodup
        subst hcm
        have hfresh2 : ∀ p ∈ rest, ∀ k, traceKey p = some k →
            containsKey (XCDPCore.save_message_event c g eid
              (XCDPSendMessageSolidity.toStored ⟨msg⟩)
              (strBytes "destination_network_placeholder")
              (List.replicate 32 (UInt8.ofNat 0))).events k = false := by
          intro p hp k hk
          apply Bool.eq_false_iff.mpr
          intro htrue
          simp only [XCDPCore.save_message_event] at htrue
          rcases (containsKey_insertAssoc _ _ _ _).mp htrue with heq | hmem
          · subst heq
            exact hnodup2.1 (htk ▸ hk ▸ List.mem_map_of_mem traceKey hp)
          · rw [hfresh p (List.mem_cons_of_mem _ hp) k hk] at hmem
            cases hmem
        obtain ⟨c1, h1, h2, h3⟩ :=
          runCalls_counts rest σmid _ σ1 hload2 hrun hnodup2.2 hfresh2
        refine ⟨c1, h1, ?_, ?_⟩
        · rw [h2]
          simp only [XCDPCore.save_message_event, List.length_cons]
          omega
        · rw [h3]
          simp only [XCDPCore.save_message_event, List.length_cons,
            insertAssoc_length_of_not_mem hkey]
          omega
      case _ => cases hrun

/-! ### The claims -/

set_option maxRecDepth 10000

/-- C2: on an initialized empty aggregate, ingesting the base64 of a JSON log
with topic `0xabc` (padded to 32 bytes) and data the ABI encoding of the
string `"hello"` under `global_tx_id` `"tx-1"` succeeds, and the resulting
aggregate holds exactly the key `"tx-1" + "-" + topics[0].to_string()` mapped
to the message `"hello"`, with `total_events = 1`. -/
theorem scenario_single_ingestion :
    XCDPCore.new emptyStorage = some initialStorage ∧
    parseLog scenarioLogJson =
      some ⟨List.replicate 20 (UInt8.ofNat 0), [scenarioTopic], helloAbi⟩ ∧
    (XCDPCore.save_event_data initialStorage scenarioEvent (strBytes "tx-1")).bind
      XCDPCore.load = some stateOne ∧
    stateOne.events = [(XCDPCore.to_key (strBytes "tx-1") (h256Display scenarioTopic),
      ⟨strBytes "hello"⟩)] ∧
    stateOne.total_events = 1 :=
  ⟨by decide, by decide, by decide, by decide, rfl⟩

/-- C1: contrary to the spec, repeating the exact same successful call is NOT
rejected: the duplicate guard tests `global_tx_id` itself while entries are
stored under the composite key, so the second identical call succeeds,
overwrites the entry and bumps `total_events` to 2. -/
theorem second_identical_call_accepted :
    ((XCDPCore.save_event_data initialStorage scenarioEvent (strBytes "tx-1")).bind
        (fun σ1 => XCDPCore.save_event_data σ1 scenarioEvent (strBytes "tx-1"))).bind
      XCDPCore.load = some ⟨stateOne.events, 2⟩ := by
  decide

/-- C3: starting from a freshly initialized aggregate, any sequence of
successful `save_event_data` calls whose composite keys are pairwise distinct
ends with `total_events` equal to the number of calls and exactly that many
entries in the events map. -/
theorem counter_equals_distinct_ingestions
    (inputs : List (Bytes × Bytes)) (σ0 σ1 : Storage)
    (hinit : XCDPCore.load σ0 = some XCDPCore.default)
    (hrun : runCalls σ0 inputs = some σ1)
    (hnodup : (inputs.map traceKey).Nodup) :
    ∃ c, XCDPCore.load σ1 = some c ∧
      c.total_events = inputs.length ∧ c.events.length = inputs.length := by
  obtain ⟨c1, h1, h2, h3⟩ := runCalls_counts inputs σ0 XCDPCore.default σ1 hinit hrun hnodup
    (fun p hp k hk => rfl)
  refine ⟨c1, h1, ?_, ?_⟩
  · simpa [XCDPCore.default] using h2
  · simpa [XCDPCore.default] using h3

/-- Witness for C3: two calls with distinct transaction ids yield a counter of
two and two stored entries. -/
theorem counter_equals_distinct_ingestions_witness :
    ∃ c, XCDPCore.load ((runCalls initialStorage
        [(scenarioEvent, strBytes "tx-1"), (scenarioEvent, strBytes "tx-2")]).getD
          emptyStorage) = some c ∧
      c.total_events = 2 ∧ c.events.length = 2 := by
  have h := counter_equals_distinct_ingestions
    [(scenarioEvent, strBytes "tx-1"), (scenarioEvent, strBytes "tx-2")]
    initialStorage
    ((runCalls initialStorage
      [(scenarioEvent, strBytes "tx-1"), (scenarioEvent, strBytes "tx-2")]).getD
        emptyStorage)
    (by decide) (by decide) (by decide)
  simpa using h

/-- C4: a failing call leaves the persisted storage exactly as it was: the
host keeps the pre-call storage, and in particular the contract slot is
byte-for-byte unchanged. -/
theorem failed_call_leaves_storage_unchanged (σ : Storage) (ev g : Bytes)
    (h : XCDPCore.save_event_data σ ev g = none) :
    XCDPCore.save_event_data_call σ ev g = σ ∧
    storage_read (XCDPCore.save_event_data_call σ ev g) STORAGE_CONTRACT_KEY
      = storage_read σ STORAGE_CONTRACT_KEY := by
  have heq := XCDPCore.save_event_data_call_of_none h
  exact ⟨heq, by rw [heq]⟩

/-- Witness for C4: a call on uninitialized storage fails and changes
nothing. -/
theorem failed_call_leaves_storage_unchanged_witness :
    XCDPCore.save_event_data emptyStorage (strBytes "e") (strBytes "t") = none ∧
    XCDPCore.save_event_data_call emptyStorage (strBytes "e") (strBytes "t")
      = emptyStorage :=
  ⟨by decide,
    (failed_call_leaves_storage_unchanged emptyStorage (strBytes "e") (strBytes "t")
      (by decide)).1⟩

/-- C5: invalid base64, bytes that do not parse as a JSON `Log`, and ABI data
too short for the one-string schema each make `save_event_data` fail with the
persisted aggregate unchanged. -/
theorem malformed_event_data_rejected (σ : Storage) (ev g : Bytes)
    (h : base64Decode ev = none ∨
      (∃ d, base64Decode ev = some d ∧ parseLog d = none) ∨
      (∃ d lg, base64Decode ev = some d ∧ parseLog d = some lg ∧
        abiDecodeString lg.data = none)) :
    XCDPCore.save_event_data σ ev g = none ∧
    XCDPCore.save_event_data_call σ ev g = σ := by
  have hde : XCDPCore.decodeEvent ev = none := by
    unfold XCDPCore.decodeEvent
    rcases h with h | ⟨d, hd, hp⟩ | ⟨d, lg, hd, hp, ha⟩
    · simp only [h, Option.none_bind]
    · simp only [hd, Option.some_bind, hp, Option.none_bind]
    · simp only [hd, Option.some_bind, hp, ha, Option.none_bind]
      cases lg.topics.head? <;> rfl
  have hnone : XCDPCore.save_event_data σ ev g = none :=
    XCDPCore.save_event_data_none_of_ingest_none
      (fun c _ => XCDPCore.ingest_none_of_decode_none hde)
  exact ⟨hnone, XCDPCore.save_event_data_call_of_none hnone⟩

/-- Witness for C5: the single byte `!` is not valid base64; the call fails
and storage is unchanged. -/
theorem malformed_event_data_rejected_witness :
    XCDPCore.save_event_data initialStorage [UInt8.ofNat 33] (strBytes "t") = none ∧
    XCDPCore.save_event_data_call initialStorage [UInt8.ofNat 33] (strBytes "t")
      = initialStorage :=
  malformed_event_data_rejected initialStorage [UInt8.ofNat 33] (strBytes "t")
    (Or.inl (by decide))

/-- C6: an empty `global_tx_id` or an empty `event_data` makes the call fail
with the persisted aggregate unchanged. -/
theorem empty_inputs_rejected (σ : Storage) (ev g : Bytes) (h : g = [] ∨ ev = []) :
    XCDPCore.save_event_data σ ev g = none ∧
    XCDPCore.save_event_data_call σ ev g = σ := by
  have hnone : XCDPCore.save_event_data σ ev g = none :=
    XCDPCore.save_event_data_none_of_ingest_none
      (fun c _ => XCDPCore.ingest_none_of_empty h)
  exact ⟨hnone, XCDPCore.save_event_data_call_of_none hnone⟩

/-- Witness for C6: an empty transaction id is rejected on an initialized
aggregate. -/
theorem empty_inputs_rejected_witness :
    XCDPCore.save_event_data initialStorage scenarioEvent [] = none ∧
    XCDPCore.save_event_data_call initialStorage scenarioEvent [] = initialStorage :=
  empty_inputs_rejected initialStorage scenarioEvent [] (Or.inl rfl)

/-- C7: whenever `save` succeeds, `load` on the resulting storage returns the
saved aggregate, field for field; this holds for every aggregate, so in
particular for every reachable one. -/
theorem save_then_load_roundtrips (c : XCDPCore) (σ σ1 : Storage)
    (h : XCDPCore.save c σ = some σ1) :
    XCDPCore.load σ1 = some c :=
  load_of_save h

/-- Witness for C7: saving the one-entry aggregate and loading it back
returns it unchanged. -/
theorem save_then_load_roundtrips_witness :
    XCDPCore.save stateOne emptyStorage
        = some ((XCDPCore.save stateOne emptyStorage).getD emptyStorage) ∧
    XCDPCore.load ((XCDPCore.save stateOne emptyStorage).getD emptyStorage)
      = some stateOne :=
  ⟨by decide, save_then_load_roundtrips stateOne emptyStorage _ (by decide)⟩

/-- C8: once the inputs are non-empty and the event decodes, the duplicate
guard rejects exactly when `global_tx_id` itself is a key of the events map;
the composite key is never what is tested, and a call whose `global_tx_id`
equals a composite key stored earlier is rejected even though its own
composite key is absent. -/
theorem duplicate_guard_tests_global_tx_id_only :
    (∀ (c : XCDPCore) (ev g : Bytes), g ≠ [] → ev ≠ [] →
        (∃ r, XCDPCore.decodeEvent ev = some r) →
        (XCDPCore.ingest c ev g = none ↔ containsKey c.events g = true)) ∧
    XCDPCore.ingest stateOne scenarioEvent (strBytes "tx-1-0x0000…0abc") = none ∧
    containsKey stateOne.events
      (XCDPCore.to_key (strBytes "tx-1-0x0000…0abc") (h256Display scenarioTopic))
      = false := by
  refine ⟨?_, by decide, by decide⟩
  intro c ev g hg hev hr
  constructor
  · intro hnone
    by_cases hck : containsKey c.events g = true
    · exact hck
    · obtain ⟨⟨eid, msg⟩, hsome⟩ := hr
      rw [XCDPCore.ingest_some_intro hg hev (Bool.eq_false_iff.mpr hck) hsome] at hnone
      cases hnone
  · intro hck
    exact XCDPCore.ingest_none_of_contains hck

/-- Witness for C8: for the fresh aggregate and the scenario event, the call
is rejected exactly when `"tx-1"` itself is a key of the (empty) map. -/
theorem duplicate_guard_tests_global_tx_id_only_witness :
    XCDPCore.ingest XCDPCore.default scenarioEvent (strBytes "tx-1") = none ↔
      containsKey XCDPCore.default.events (strBytes "tx-1") = true :=
  duplicate_guard_tests_global_tx_id_only.1 XCDPCore.default scenarioEvent
    (strBytes "tx-1") (by decide) (by decide)
    ⟨(h256Display scenarioTopic, strBytes "hello"), by decide⟩

/-- C9: `save_message_event` increments the counter by exactly one and its
insert overwrites any entry under the same key; hence on reachable states the
counter dominates the number of distinct keys, strictly after an insert under
an already-present key. -/
theorem save_message_event_increments_and_overwrites :
    (∀ (c : XCDPCore) (g e : Bytes) (m : XCDPSendMessage) (dn da : Bytes),
        (XCDPCore.save_message_event c g e m dn da).total_events
          = c.total_events + 1) ∧
    (∀ (c : XCDPCore) (g e : Bytes) (m : XCDPSendMessage) (dn da : Bytes),
        lookupAssoc (XCDPCore.save_message_event c g e m dn da).events
          (XCDPCore.to_key g e) = some m) ∧
    (∀ c : XCDPCore, Reachable c → distinctKeyCount c ≤ c.total_events) ∧
    (∀ (c : XCDPCore) (g e : Bytes) (m : XCDPSendMessage) (dn da : Bytes),
        Reachable c → containsKey c.events (XCDPCore.to_key g e) = true →
        distinctKeyCount (XCDPCore.save_message_event c g e m dn da)
          < (XCDPCore.save_message_event c g e m dn da).total_events) := by
  have hdk : ∀ c : XCDPCore, (c.events.map Prod.fst).Nodup →
      distinctKeyCount c = c.events.length := by
    intro c hn
    unfold distinctKeyCount
    rw [hn.dedup, List.length_map]
  refine ⟨fun c g e m dn da => rfl,
    fun c g e m dn da => lookupAssoc_insertAssoc_self _ _ _, ?_, ?_⟩
  · intro c hre
    obtain ⟨hn, hl⟩ := reachable_inv hre
    rw [hdk c hn]
    exact hl
  · intro c g e m dn da hre hck
    obtain ⟨hn, hl⟩ := reachable_inv hre
    have hkeys : ((XCDPCore.save_message_event c g e m dn da).events.map Prod.fst)
        = c.events.map Prod.fst := by
      simp only [XCDPCore.save_message_event]
      exact insertAssoc_keys_of_mem hck m
    unfold distinctKeyCount
    rw [hkeys, hn.dedup, List.length_map]
    simp only [XCDPCore.save_message_event]
    omega

/-- Witness for C9: the one-entry reachable aggregate satisfies the counter
bound, and re-inserting under its stored key makes the bound strict. -/
theorem save_message_event_increments_and_overwrites_witness :
    distinctKeyCount stateOne ≤ stateOne.total_events ∧
    distinctKeyCount (XCDPCore.save_message_event stateOne (strBytes "tx-1")
        (strBytes "0x0000…0abc") ⟨strBytes "bye"⟩ [] [])
      < (XCDPCore.save_message_event stateOne (strBytes "tx-1")
        (strBytes "0x0000…0abc") ⟨strBytes "bye"⟩ [] []).total_events := by
  have hre : Reachable stateOne :=
    @Reachable.step XCDPCore.default stateOne scenarioEvent (strBytes "tx-1")
      Reachable.init (by decide)
  exact ⟨save_message_event_increments_and_overwrites.2.2.1 stateOne hre,
    save_message_event_increments_and_overwrites.2.2.2 stateOne (strBytes "tx-1")
      (strBytes "0x0000…0abc") ⟨strBytes "bye"⟩ [] [] hre (by decide)⟩

/-- C10: `to_key` is not injective on pairs: distinct pairs can produce the
same composite key, and a second insert under the colliding key overwrites
the first stored message. -/
theorem to_key_not_injective :
    XCDPCore.to_key (strBytes "a") (strBytes "b-c")
        = XCDPCore.to_key (strBytes "a-b") (strBytes "c") ∧
    (strBytes "a", strBytes "b-c") ≠ (strBytes "a-b", strBytes "c") ∧
    lookupAssoc (XCDPCore.save_message_event
        (XCDPCore.save_message_event XCDPCore.default (strBytes "a") (strBytes "b-c")
          ⟨strBytes "one"⟩ [] [])
        (strBytes "a-b") (strBytes "c") ⟨strBytes "two"⟩ [] []).events
      (strBytes "a-b-c") = some ⟨strBytes "two"⟩ :=
  ⟨by decide, by decide, by decide⟩
